import Mathlib

/-!
Verification of the warc_tracker_script repository against its specification.

Two components are modelled:

* The Identifier Normalizer (spec §4.1).  Its source is not part of the
  checked-in `src/` tree (only the spreadsheet demo `main.py` is), so the
  normalizer is modelled from the specification text, step by step.
  Strings are embedded as `List Char`.

* The spreadsheet demo `main.py`: the call sequence of
  `manage_gsheet_writer` and the effect of `run_simple_read` on the
  spreadsheet, embedded as an action trace over an abstract spreadsheet
  state.
-/

namespace WarcTracker

/-- Whitespace test used by trimming: space, tab, newline, carriage return. -/
def isWS (c : Char) : Bool :=
  c = ' ' || c = '\t' || c = '\n' || c = '\r'

/-- Modelled from the spec: trimming of surrounding whitespace (spec §4.1
steps 2 and 3b).  Leading whitespace is removed by `dropWhile`, trailing
whitespace by `rdropWhile`. -/
def trim (s : List Char) : List Char :=
  (s.dropWhile isWS).rdropWhile isWS

/-- Modelled from the spec: splitting on the comma character (spec §4.1
step 3a).  Mirrors the usual string `split(",")`: every comma is a
separator, so leading/trailing/consecutive commas yield empty segments. -/
def splitComma : List Char → List (List Char)
  | [] => [[]]
  | c :: cs =>
      if c = ',' then [] :: splitComma cs
      else
        match splitComma cs with
        | [] => [[c]]
        | seg :: rest => (c :: seg) :: rest

/-- Modelled from the spec: the error taxonomy of spec §7. -/
inductive ValidationError where
  | emptyInput
  | mixedSeparators
  | noValidIdentifiers
deriving DecidableEq

deriving instance DecidableEq for Except

/-- Modelled from the spec: the human-readable message carried by each
validation error (spec §4.1 and §7). -/
def message : ValidationError → String
  | .emptyInput => "no identifiers provided"
  | .mixedSeparators => "mixed separators not allowed"
  | .noValidIdentifiers => "no valid identifiers after processing"

/-- The comma-split, individually trimmed segments of the trimmed input
(spec §4.1 steps 3a and 3b). -/
def segments (s : List Char) : List (List Char) :=
  (splitComma (trim s)).map trim

/-- The segments that remain after dropping empty ones
(spec §4.1 step 3d). -/
def kept (s : List Char) : List (List Char) :=
  (segments s).filter (fun seg => seg ≠ [])

/-- Modelled from the spec: the Identifier Normalizer (spec §4.1).  The
normalizer itself is not under `src/`; this follows the spec's algorithm
steps 1-4 literally. -/
def normalize (s : List Char) : Except ValidationError (List (List Char)) :=
  if s.all isWS then
    .error .emptyInput
  else if ',' ∈ trim s then
    if ∃ seg ∈ segments s, ' ' ∈ seg then
      .error .mixedSeparators
    else if kept s = [] then
      .error .noValidIdentifiers
    else
      .ok (kept s)
  else
    .ok [trim s]

/-! ### Basic lemmas about `trim` -/

theorem trim_sublist (s : List Char) : List.Sublist (trim s) s :=
  ((List.rdropWhile_prefix isWS _).sublist).trans (List.dropWhile_sublist isWS)

theorem mem_of_mem_trim {a : Char} {s : List Char} (h : a ∈ trim s) : a ∈ s :=
  (trim_sublist s).subset h

theorem trim_eq_nil_iff {s : List Char} : trim s = [] ↔ s.all isWS = true := by
  unfold trim
  rw [List.rdropWhile_eq_nil_iff, List.all_eq_true]
  constructor
  · intro h x hx
    have hx2 : x ∈ s.takeWhile isWS ++ s.dropWhile isWS := by
      rw [List.takeWhile_append_dropWhile]
      exact hx
    rcases List.mem_append.mp hx2 with h1 | h2
    · exact List.mem_takeWhile_imp h1
    · exact h x h2
  · intro h x hx
    exact h x ((List.dropWhile_sublist isWS).subset hx)

theorem dropWhile_rdropWhile (p : Char → Bool) (l : List Char) :
    (( l.dropWhile p).rdropWhile p).dropWhile p = (l.dropWhile p).rdropWhile p := by
  rw [List.dropWhile_eq_self_iff]
  intro hl hp
  have hpre := List.rdropWhile_prefix p (l.dropWhile p)
  have hlt : 0 < (l.dropWhile p).length := lt_of_lt_of_le hl hpre.length_le
  have hg := hpre.getElem (n := 0) hl
  rw [List.get_eq_getElem] at hp
  rw [hg] at hp
  exact List.dropWhile_get_zero_not p l hlt (by simpa [List.get_eq_getElem] using hp)

theorem trim_idem (s : List Char) : trim (trim s) = trim s := by
  unfold trim
  rw [dropWhile_rdropWhile, List.rdropWhile_idempotent]

theorem trim_not_mem_comma {s : List Char} (h : ',' ∉ s) : ',' ∉ trim s :=
  fun hc => h (mem_of_mem_trim hc)

/-! ### Helper lemmas about `normalize` -/

theorem mem_kept {s x : List Char} (hx : x ∈ kept s) : x ≠ [] ∧ trim x = x := by
  unfold kept at hx
  rw [List.mem_filter] at hx
  obtain ⟨hmem, hne⟩ := hx
  have hne2 : x ≠ [] := by simpa using hne
  unfold segments at hmem
  rw [List.mem_map] at hmem
  obtain ⟨y, hy, rfl⟩ := hmem
  exact ⟨hne2, trim_idem y⟩

theorem all_isWS_false_of_comma {s : List Char} (h : ',' ∈ trim s) :
    s.all isWS = false := by
  rcases hb : s.all isWS with _ | _
  · rfl
  · exfalso
    rw [← trim_eq_nil_iff] at hb
    rw [hb] at h
    exact List.not_mem_nil ',' h

theorem normalize_comma_ok_aux (s : List Char)
    (h1 : ',' ∈ trim s)
    (h2 : ∀ seg ∈ segments s, ' ' ∉ seg)
    (h3 : kept s ≠ []) :
    normalize s = .ok (kept s) := by
  unfold normalize
  rw [if_neg, if_pos h1, if_neg, if_neg h3]
  · intro hex
    obtain ⟨seg, hseg, hsp⟩ := hex
    exact h2 seg hseg hsp
  · rw [all_isWS_false_of_comma h1]
    exact Bool.false_ne_true

theorem normalize_noValid_iff_aux (s : List Char) (h : ',' ∈ trim s) :
    normalize s = .error .noValidIdentifiers ↔ kept s = [] := by
  have hall : ¬ (s.all isWS = true) := by
    rw [all_isWS_false_of_comma h]
    exact Bool.false_ne_true
  unfold normalize
  rw [if_neg hall, if_pos h]
  constructor
  · intro heq
    by_cases hex : ∃ seg ∈ segments s, ' ' ∈ seg
    · rw [if_pos hex] at heq
      exact absurd (Except.error.inj heq) (by intro hc ; cases hc)
    · rw [if_neg hex] at heq
      by_cases hk : kept s = []
      · exact hk
      · rw [if_neg hk] at heq
        cases heq
  · intro hk
    have hex : ¬ ∃ seg ∈ segments s, ' ' ∈ seg := by
      intro hex
      obtain ⟨seg, hseg, hsp⟩ := hex
      have hne : seg ≠ [] := by
        intro hnil
        rw [hnil] at hsp
        exact List.not_mem_nil ' ' hsp
      have : seg ∈ kept s := by
        unfold kept
        rw [List.mem_filter]
        exact ⟨hseg, by simpa using hne⟩
      rw [hk] at this
      exact List.not_mem_nil seg this
    rw [if_neg hex, if_pos hk]

theorem normalize_no_comma_aux (s : List Char)
    (h1 : ¬ (s.all isWS = true)) (h2 : ',' ∉ trim s) :
    normalize s = .ok [trim s] := by
  unfold normalize
  rw [if_neg h1, if_neg h2]

/-- A single identifier already in normal form: non-empty, no comma, no
internal space, no surrounding whitespace (spec §8, idempotence). -/
def isNormalizedSingle (s : List Char) : Prop :=
  s ≠ [] ∧ ',' ∉ s ∧ ' ' ∉ s ∧ trim s = s

/-! ### Claim theorems for the Identifier Normalizer -/

/-- C1: whenever the Identifier Normalizer succeeds, the returned list is
non-empty and every element is a non-empty string with no leading or
trailing whitespace; the list is either exactly the trimmed non-empty
comma segments in input order (duplicates kept) or the singleton of the
trimmed input. -/
theorem normalize_ok_invariants (s : List Char) (l : List (List Char))
    (h : normalize s = .ok l) :
    l ≠ [] ∧ (∀ x ∈ l, x ≠ [] ∧ trim x = x) ∧ (l = kept s ∨ l = [trim s]) := by
  unfold normalize at h
  by_cases h1 : s.all isWS = true
  · rw [if_pos h1] at h
    cases h
  · rw [if_neg h1] at h
    by_cases h2 : ',' ∈ trim s
    · rw [if_pos h2] at h
      by_cases h3 : ∃ seg ∈ segments s, ' ' ∈ seg
      · rw [if_pos h3] at h
        cases h
      · rw [if_neg h3] at h
        by_cases h4 : kept s = []
        · rw [if_pos h4] at h
          cases h
        · rw [if_neg h4] at h
          have hl : l = kept s := (Except.ok.inj h).symm
          subst hl
          exact ⟨h4, fun x hx => mem_kept hx, Or.inl rfl⟩
    · rw [if_neg h2] at h
      have hl : l = [trim s] := (Except.ok.inj h).symm
      subst hl
      have htne : trim s ≠ [] := by
        intro hnil
        exact h1 (trim_eq_nil_iff.mp hnil)
      refine ⟨by simp, ?_, Or.inr rfl⟩
      intro x hx
      rw [List.mem_singleton] at hx
      subst hx
      exact ⟨htne, trim_idem s⟩

/-- Witness for C1 at the concrete input "a,b". -/
theorem normalize_ok_invariants_witness :
    ([['a'], ['b']] : List (List Char)) ≠ [] ∧
      (∀ x ∈ ([['a'], ['b']] : List (List Char)), x ≠ [] ∧ trim x = x) ∧
      (([['a'], ['b']] : List (List Char)) = kept ("a,b".data) ∨
        ([['a'], ['b']] : List (List Char)) = [trim ("a,b".data)]) :=
  normalize_ok_invariants ("a,b".data) [['a'], ['b']] (by decide)

/-- C2: any non-empty, not-all-whitespace input containing no comma is
accepted as a single identifier: the result is exactly the one-element
list holding the trimmed input, internal spaces preserved. -/
theorem normalize_single_no_comma (s : List Char)
    (_h1 : s ≠ []) (h2 : ¬ (∀ c ∈ s, isWS c = true)) (h3 : ',' ∉ s) :
    normalize s = .ok [trim s] := by
  have hall : ¬ (s.all isWS = true) := by
    rw [List.all_eq_true]
    exact h2
  exact normalize_no_comma_aux s hall (trim_not_mem_comma h3)

/-- Witness for C2 at the concrete input "a b" (internal space kept). -/
theorem normalize_single_no_comma_witness :
    normalize ("a b".data) = .ok [['a', ' ', 'b']] :=
  (normalize_single_no_comma ("a b".data) (by decide) (by decide)
    (by decide)).trans (by decide)

/-- C3: if the trimmed input contains a comma and every comma-split,
trimmed segment is free of internal spaces, with at least one non-empty
segment, normalization succeeds with the trimmed non-empty segments in
their original order. -/
theorem normalize_comma_split (s : List Char)
    (h1 : ',' ∈ trim s)
    (h2 : ∀ seg ∈ segments s, ' ' ∉ seg)
    (h3 : kept s ≠ []) :
    normalize s = .ok (kept s) :=
  normalize_comma_ok_aux s h1 h2 h3

/-- Witness for C3: "a,b,c" normalizes to ["a","b","c"], and so does
" a , b ,c ". -/
theorem normalize_comma_split_witness :
    normalize ("a,b,c".data) = .ok [['a'], ['b'], ['c']] ∧
      normalize (" a , b ,c ".data) = .ok [['a'], ['b'], ['c']] :=
  ⟨(normalize_comma_split ("a,b,c".data) (by decide) (by decide)
      (by decide)).trans (by decide),
   (normalize_comma_split (" a , b ,c ".data) (by decide) (by decide)
      (by decide)).trans (by decide)⟩

/-- C4: if the trimmed input contains a comma and some comma-split,
trimmed segment still contains an internal space, normalization fails
with the mixed-separators error, whose message is
"mixed separators not allowed". -/
theorem normalize_mixed_separators (s : List Char)
    (h1 : ',' ∈ trim s)
    (h2 : ∃ seg ∈ segments s, ' ' ∈ seg) :
    normalize s = .error .mixedSeparators ∧
      message .mixedSeparators = "mixed separators not allowed" := by
  refine ⟨?_, rfl⟩
  unfold normalize
  rw [if_neg, if_pos h1, if_pos h2]
  rw [all_isWS_false_of_comma h1]
  exact Bool.false_ne_true

/-- Witness for C4 at the concrete input "a,b c". -/
theorem normalize_mixed_separators_witness :
    normalize ("a,b c".data) = .error .mixedSeparators ∧
      message .mixedSeparators = "mixed separators not allowed" :=
  normalize_mixed_separators ("a,b c".data) (by decide) (by decide)

/-- C5: an input that is empty or consists entirely of whitespace fails
with the empty-input error, whose message is "no identifiers provided". -/
theorem normalize_empty_input (s : List Char)
    (h : s = [] ∨ ∀ c ∈ s, isWS c = true) :
    normalize s = .error .emptyInput ∧
      message .emptyInput = "no identifiers provided" := by
  refine ⟨?_, rfl⟩
  have hall : s.all isWS = true := by
    rw [List.all_eq_true]
    rcases h with h | h
    · subst h
      intro c hc
      exact absurd hc (List.not_mem_nil c)
    · exact h
  unfold normalize
  rw [if_pos hall]

/-- Witness for C5 at the concrete all-whitespace input "   ". -/
theorem normalize_empty_input_witness :
    normalize ("   ".data) = .error .emptyInput ∧
      message .emptyInput = "no identifiers provided" :=
  normalize_empty_input ("   ".data) (by decide)

/-- C6: for comma-containing input, empty segments are silently dropped
(the non-empty ones are returned when no segment mixes separators), and
the no-valid-identifiers error occurs exactly when dropping the empty
segments leaves nothing. -/
theorem normalize_empty_segments_dropped (s : List Char) (h : ',' ∈ trim s) :
    (normalize s = .error .noValidIdentifiers ↔ kept s = []) ∧
      (kept s ≠ [] → (∀ seg ∈ segments s, ' ' ∉ seg) →
        normalize s = .ok (kept s)) :=
  ⟨normalize_noValid_iff_aux s h,
   fun h3 h2 => normalize_comma_ok_aux s h h2 h3⟩

/-- Witness for C6 at the concrete input "," (all segments empty). -/
theorem normalize_empty_segments_dropped_witness :
    (normalize (",".data) = .error .noValidIdentifiers ↔ kept (",".data) = []) ∧
      (kept (",".data) ≠ [] → (∀ seg ∈ segments (",".data), ' ' ∉ seg) →
        normalize (",".data) = .ok (kept (",".data))) :=
  normalize_empty_segments_dropped (",".data) (by decide)

/-- C7: a string that is already a normalized single identifier
(non-empty, no comma, no internal space, no surrounding whitespace)
normalizes to the singleton list holding itself, and normalizing the sole
element of that result returns the same result. -/
theorem normalize_idempotent_single (s : List Char)
    (h : isNormalizedSingle s) :
    normalize s = .ok [s] ∧ ∀ x ∈ [s], normalize x = .ok [s] := by
  obtain ⟨h1, h2, h3, h4⟩ := h
  have hall : ¬ (s.all isWS = true) := by
    intro hb
    exact h1 ((h4.symm.trans (trim_eq_nil_iff.mpr hb)).symm ▸ trim_eq_nil_iff.mpr hb)
  have hmain : normalize s = .ok [s] := by
    have := normalize_no_comma_aux s hall (by rw [h4] ; exact h2)
    rw [h4] at this
    exact this
  refine ⟨hmain, ?_⟩
  intro x hx
  rw [List.mem_singleton] at hx
  subst hx
  exact hmain

/-- Witness for C7 at the concrete input "abc". -/
theorem normalize_idempotent_single_witness :
    normalize ("abc".data) = .ok ["abc".data] ∧
      ∀ x ∈ ["abc".data], normalize x = .ok ["abc".data] :=
  normalize_idempotent_single ("abc".data)
    ⟨by decide, by decide, by decide, by decide⟩

/-- C8: the Identifier Normalizer is deterministic: two runs on the same
input produce the same result; it depends on no ambient state, being a
function of the input string alone. -/
theorem normalize_deterministic (s : List Char)
    (r1 r2 : Except ValidationError (List (List Char)))
    (h1 : normalize s = r1) (h2 : normalize s = r2) : r1 = r2 :=
  h1.symm.trans h2

/-- Witness for C8 at the concrete input "a". -/
theorem normalize_deterministic_witness :
    (Except.ok [['a']] : Except ValidationError (List (List Char))) =
      .ok [['a']] :=
  normalize_deterministic ("a".data) _ _ (by decide) (by decide)

/-! ### The spreadsheet demo script (src/main.py) -/

/-- The four demo helper functions defined in src/main.py. -/
inductive DemoOp where
  | run_simple_read
  | tweak_worksheet
  | run_simple_write
  | run_find
deriving DecidableEq

/-- The sequence of demo calls made by the body of manage_gsheet_writer
(src/main.py lines 96-108): run_simple_read, then tweak_worksheet, then
run_simple_write, then run_find. -/
def manage_gsheet_writer : List DemoOp :=
  [.run_simple_read, .tweak_worksheet, .run_simple_write, .run_find]

/-- The demo calls performed when main.py is run as a script: the
main-guard (src/main.py lines 111-112) invokes manage_gsheet_writer
exactly once. -/
def script_main : List DemoOp :=
  manage_gsheet_writer

/-- C9: run as a script, main.py performs the four demo operations
exactly once each, always in the fixed order simple read, worksheet-title
rename, cell write, value find. -/
theorem script_main_order_and_counts :
    script_main = [DemoOp.run_simple_read, DemoOp.tweak_worksheet,
      DemoOp.run_simple_write, DemoOp.run_find] ∧
      ∀ op : DemoOp, script_main.count op = 1 := by
  refine ⟨rfl, ?_⟩
  intro op
  cases op <;> rfl

/-- The gspread API calls that appear in main.py, abstracted by name and
argument. -/
inductive GSAction where
  | open_by_key (key : String)
  | row_values (row : Nat)
  | worksheets
  | update_title (title : String)
  | update_acell (cell : String) (value : String)
  | find_value (query : String)

/-- Abstract state of the remote spreadsheet: its worksheet titles and
the value of each cell address. -/
structure SpreadsheetState where
  worksheetTitles : List String
  cells : String → String

/-- Semantics of each gspread call on the spreadsheet state: only
update_title (rename of the first worksheet) and update_acell (cell
write) change the spreadsheet; open_by_key, row_values, worksheets and
find_value are pure reads. -/
def applyAction (a : GSAction) (st : SpreadsheetState) : SpreadsheetState :=
  match a with
  | .update_title t => { st with worksheetTitles := st.worksheetTitles.set 0 t }
  | .update_acell addr v =>
      { st with cells := fun x => if x = addr then v else st.cells x }
  | _ => st

/-- Whether a gspread call writes to the spreadsheet. -/
def mutates : GSAction → Bool
  | .update_title _ => true
  | .update_acell _ _ => true
  | _ => false

/-- Run a list of gspread calls against a spreadsheet state. -/
def runActions (as : List GSAction) (st : SpreadsheetState) : SpreadsheetState :=
  as.foldl (fun acc a => applyAction a acc) st

/-- The OAuth scope list run_simple_read authorizes with
(src/main.py line 34): read-only access. -/
def limited_scopes : List String :=
  ["https://www.googleapis.com/auth/spreadsheets.readonly"]

/-- The gspread calls issued by run_simple_read (src/main.py lines
29-40): open the spreadsheet by key, then read the values of row 1. -/
def run_simple_read_actions (gsheetId : String) : List GSAction :=
  [.open_by_key gsheetId, .row_values 1]

/-- C10: run_simple_read never mutates the spreadsheet: its scope list is
exactly the read-only scope, every call it issues is a read, and running
its calls leaves any spreadsheet state unchanged. -/
theorem run_simple_read_no_mutation (gsheetId : String) (st : SpreadsheetState) :
    limited_scopes = ["https://www.googleapis.com/auth/spreadsheets.readonly"] ∧
      (∀ a ∈ run_simple_read_actions gsheetId, mutates a = false) ∧
      runActions (run_simple_read_actions gsheetId) st = st := by
  refine ⟨rfl, ?_, rfl⟩
  intro a ha
  unfold run_simple_read_actions at ha
  rcases List.mem_cons.mp ha with h | h
  · subst h
    rfl
  · rw [List.mem_singleton] at h
    subst h
    rfl

end WarcTracker
